import Mathlib

/-!
Shallow embedding of the changed-file resolution pipeline and tab
reconciler of the vscode-branch-change-tabs extension.

Pure functions of the source (parsing, filtering, precedence resolution)
become Lean functions; each subprocess or editor-host interaction is
represented by an explicit oracle parameter (an `Except` result or a
`Bool`-valued function), so that the control flow of the TypeScript
source is reproduced verbatim over those oracles.
-/

namespace BranchTabs

/-- Change kind of a file relative to the base ref (`src/src/types.ts`). -/
inductive ChangeKind where
  | modified
  | added
deriving DecidableEq, Repr

/-- A changed-file record: repo-relative path plus change kind. -/
structure ChangedFile where
  path : String
  kind : ChangeKind
deriving DecidableEq, Repr

/-! ## JavaScript string primitives

The source manipulates strings with `trim`, `split(/\t+/)`, `split(/\r?\n/)`,
`split("\0")`, `toLowerCase`, `startsWith` and `endsWith`.  Each is modelled
on the character list underlying the Lean `String`. -/

/-- Whitespace recognised by the embedding of `String.prototype.trim`
(the whitespace that actually occurs in git plumbing output). -/
def wsChar (c : Char) : Bool :=
  c = ' ' || c = '\t' || c = '\n' || c = '\r'

/-- Trims `wsChar` characters from both ends of a character list. -/
def trimList (l : List Char) : List Char :=
  ((l.dropWhile wsChar).reverse.dropWhile wsChar).reverse

/-- Embedding of `value.trim()`. -/
def jsTrim (s : String) : String :=
  String.mk (trimList s.data)

/-- Embedding of `value.toLowerCase()` (ASCII case folding). -/
def jsToLower (s : String) : String :=
  String.mk (s.data.map Char.toLower)

/-- Embedding of `s.startsWith(c)` for a one-character needle. -/
def startsWithChar (s : String) (c : Char) : Bool :=
  match s.data with
  | [] => false
  | x :: _ => x = c

/-- Embedding of `s.endsWith(t)`. -/
def strEndsWith (s t : String) : Bool :=
  decide (t.data.length ≤ s.data.length) &&
    decide (s.data.drop (s.data.length - t.data.length) = t.data)

/-- Splits on a single separator character, keeping empty segments,
like `String.prototype.split` with a one-character separator. -/
def splitCharAux (c : Char) : List Char → List Char → List String
  | [], acc => [String.mk acc.reverse]
  | x :: rest, acc =>
      if x = c then String.mk acc.reverse :: splitCharAux c rest []
      else splitCharAux c rest (x :: acc)

/-- Embedding of `s.split(sep)` for a one-character separator. -/
def splitOnChar (c : Char) (s : String) : List String :=
  splitCharAux c s.data []

/-- Worker for `split(/\t+/)`: a maximal run of tabs acts as one
separator.  The flag records whether the previous character was a tab,
so a run of tabs emits a single boundary. -/
def splitTabsAux : List Char → List Char → Bool → List String
  | [], acc, _ => [String.mk acc.reverse]
  | c :: rest, acc, prevTab =>
      if c = '\t' then
        if prevTab then splitTabsAux rest acc true
        else String.mk acc.reverse :: splitTabsAux rest [] true
      else splitTabsAux rest (c :: acc) false

/-- Embedding of `line.split(/\t+/)`. -/
def splitTabRuns (s : String) : List String :=
  splitTabsAux s.data [] false

/-- Worker for `split(/\r?\n/)`: `\n` or `\r\n` separates lines, a lone
`\r` is ordinary content. -/
def splitLinesAux : List Char → List Char → List String
  | [], acc => [String.mk acc.reverse]
  | '\r' :: '\n' :: rest, acc => String.mk acc.reverse :: splitLinesAux rest []
  | '\n' :: rest, acc => String.mk acc.reverse :: splitLinesAux rest []
  | c :: rest, acc => splitLinesAux rest (c :: acc)

/-- Embedding of `stdout.split(/\r?\n/)`. -/
def splitLinesCRLF (s : String) : List String :=
  splitLinesAux s.data []

/-! ## ChangeKindParser (`parseNameStatus` in `src/src/git/gitDiff.ts`) -/

/-- Embedding of `parseNameStatus`: parses one `git diff --name-status`
line into a `ChangedFile`, or nothing. -/
def parseNameStatus (line : String) : Option ChangedFile :=
  let parts := splitTabRuns line
  let status := (parts.get? 0).getD ""
  if status = "" then none
  else if startsWithChar status 'R' || startsWithChar status 'C' then
    let newPath := (parts.get? 2).getD ""
    if newPath = "" then none
    else some { path := newPath, kind := ChangeKind.modified }
  else
    let filePath := (parts.get? 1).getD ""
    if filePath = "" then none
    else if status = "A" then some { path := filePath, kind := ChangeKind.added }
    else if status = "M" then some { path := filePath, kind := ChangeKind.modified }
    else none

/-- The per-line post-processing of `getChangedFiles`: trim every line,
drop blank lines, then parse each surviving line. -/
def linesToChangedFiles (lines : List String) : List ChangedFile :=
  ((lines.map jsTrim).filter (fun l => l ≠ "")).filterMap parseNameStatus

/-- Embedding of `getChangedFiles` (`src/src/git/gitDiff.ts`): the diff
subprocess outcome is the oracle; on failure the function logs and
returns the empty list. -/
def getChangedFiles (diffResult : Except Unit String) : List ChangedFile :=
  match diffResult with
  | Except.error _ => []
  | Except.ok stdout => linesToChangedFiles (splitLinesCRLF stdout)

/-! ## BaseRefResolver (`resolveBaseRef` in `src/src/git/gitDiff.ts`)

`doesRefExist` runs `git rev-parse --verify`; the embedding takes the
verification outcome as an oracle `refExists : String → Bool`. -/

/-- Embedding of JS truthiness for a `string | undefined` value. -/
def jsStrTruthy : Option String → Bool
  | none => false
  | some s => s ≠ ""

/-- Embedding of `resolveBaseRef`. -/
def resolveBaseRef (refExists : String → Bool) (configuredBase : String)
    (currentBranch upstream : Option String) : Option String :=
  let cfg := jsTrim configuredBase
  if cfg ≠ "" && refExists cfg then some cfg
  else
    let fromUpstream : Option String :=
      match upstream with
      | none => none
      | some u =>
          let upstreamRef := jsTrim u
          if upstreamRef = "" then none
          else
            let tracksSameBranch :=
              match currentBranch with
              | none => false
              | some b =>
                  if b = "" then false
                  else upstreamRef = b || strEndsWith upstreamRef ("/" ++ b)
            if !tracksSameBranch && refExists upstreamRef then some upstreamRef
            else none
    match fromUpstream with
    | some r => some r
    | none =>
        if refExists "main" then some "main"
        else if refExists "master" then some "master"
        else none

/-- First defined element of a candidate list (used by the spec-side
formulation of the precedence order). -/
def firstSome : List (Option String) → Option String
  | [] => none
  | some r :: _ => some r
  | none :: rest => firstSome rest

/-- Spec-side formulation of the base-ref precedence, written from the
spec's words: four candidates tried in order, first success wins. -/
def baseRefSpec (refExists : String → Bool) (configuredBase : String)
    (currentBranch upstream : Option String) : Option String :=
  let overrideCand : Option String :=
    if jsTrim configuredBase ≠ "" && refExists (jsTrim configuredBase) then
      some (jsTrim configuredBase)
    else none
  let upstreamCand : Option String :=
    match upstream with
    | none => none
    | some u =>
        if jsTrim u ≠ "" && refExists (jsTrim u)
            && !(match currentBranch with
                 | none => false
                 | some b =>
                     if b = "" then false
                     else jsTrim u = b || strEndsWith (jsTrim u) ("/" ++ b)) then
          some (jsTrim u)
        else none
  let mainCand : Option String := if refExists "main" then some "main" else none
  let masterCand : Option String := if refExists "master" then some "master" else none
  firstSome [overrideCand, upstreamCand, mainCand, masterCand]

/-! ## FilterPipeline stages (`src/src/filters.ts`, `src/build/filters.js`)

The regex engine of the host is abstracted as a compile oracle
`compile : pattern → flags → Option (String → Bool)`; `none` models an
invalid pattern (`new RegExp` throwing). -/

/-- Embedding of `filterByChangeKind` / `filterByTypeOfChange`. -/
def filterByChangeKind (files : List ChangedFile)
    (includeModified includeAdded : Bool) : List ChangedFile :=
  if includeModified && includeAdded then files
  else if !includeModified && !includeAdded then []
  else
    files.filter fun file =>
      if includeModified then file.kind = ChangeKind.modified
      else file.kind = ChangeKind.added

/-- Position of the last `/` in a character list (`lastIndexOf("/")`);
`0` doubles as "not found or found at index 0", exactly the uses the
source makes of it. -/
def lastSlashPos (l : List Char) : Nat :=
  l.enum.foldl (fun acc p => if p.2 = '/' then p.1 else acc) 0

/-- Embedding of `parseRegex`: supports `/pattern/flags` or a bare
pattern; an empty or invalid pattern yields nothing. -/
def parseRegex (compile : String → String → Option (String → Bool))
    (value : String) : Option (String → Bool) :=
  let trimmed := jsTrim value
  if trimmed = "" then none
  else if startsWithChar trimmed '/' && decide (lastSlashPos trimmed.data > 0) then
    let lastSlash := lastSlashPos trimmed.data
    let pattern := String.mk (trimmed.data.take lastSlash |>.drop 1)
    let flags := String.mk (trimmed.data.drop (lastSlash + 1))
    compile pattern flags
  else compile trimmed ""

/-- Embedding of `filterExcluded` / `filterExcludedFiles`. -/
def filterExcluded (compile : String → String → Option (String → Bool))
    (files : List ChangedFile) (regexes : List String) : List ChangedFile :=
  let compiled := regexes.filterMap (parseRegex compile)
  if compiled.length = 0 then files
  else files.filter fun file => !(compiled.any fun regex => regex file.path)

/-- Embedding of `filterExcludedDirectories`. -/
def filterExcludedDirectories (compile : String → String → Option (String → Bool))
    (files : List ChangedFile) (dirRegexes : List String) : List ChangedFile :=
  let compiled := dirRegexes.filterMap (parseRegex compile)
  if compiled.length = 0 then files
  else files.filter fun file => !(compiled.any fun regex => regex file.path)

/-- Embedding of `filterWorkspaceIgnoredFiles`
(`src/src/state/ignoredFiles.ts`); the persisted set is a list. -/
def filterWorkspaceIgnoredFiles (files : List ChangedFile)
    (ignoredFiles : List String) : List ChangedFile :=
  if ignoredFiles = [] then files
  else files.filter fun file => !(ignoredFiles.contains file.path)

/-- The set of paths `git check-ignore -z` reported as ignored, parsed
from its NUL-delimited stdout exactly as both filter variants do. -/
def ignoredEntries (stdout : String) : List String :=
  ((splitOnChar (Char.ofNat 0) stdout).map jsTrim).filter (fun entry => entry ≠ "")

/-- Embedding of `filterGitIgnored` (`src/src/filters.ts`): the
`runGitCheckIgnore` outcome is the oracle (stdout and exit code on
success).  The trailing `exitCode === 1` early return of the source is
unreachable (it follows a `return`) and is therefore absent. -/
def filterGitIgnored (checkIgnore : Except Unit (String × Option Int))
    (files : List ChangedFile) : List ChangedFile :=
  if files = [] then files
  else
    match checkIgnore with
    | Except.error _ => files
    | Except.ok (stdout, _exitCode) =>
        if stdout = "" then files
        else
          let ignored := ignoredEntries stdout
          if ignored = [] then files
          else files.filter fun file => !(ignored.contains file.path)

/-- Embedding of `filterGitIgnoredFilesDirectories`
(`src/build/filters.js`): note the guard `exitCode === 1 || ignored.size`
returns the input before the filtering line is reached. -/
def filterGitIgnoredFilesDirectories (checkIgnore : Except Unit (String × Option Int))
    (files : List ChangedFile) : List ChangedFile :=
  if files = [] then files
  else
    match checkIgnore with
    | Except.error _ => files
    | Except.ok (stdout, exitCode) =>
        if stdout = "" then files
        else
          let ignored := ignoredEntries stdout
          if exitCode = some 1 || ignored.length ≠ 0 then files
          else files.filter fun file => !(ignored.contains file.path)

/-- Embedding of `filterTextFiles`: per-path oracles stand for the
`fs.stat` probe and the `openTextDocument` attempt. -/
def filterTextFiles (fileOnDisk opensAsText : String → Bool)
    (files : List ChangedFile) : List ChangedFile :=
  files.filter fun file => fileOnDisk file.path && opensAsText file.path

/-! ## AuthorOwnershipFilter (`src/src/git/gitDiff.ts`) -/

/-- Identity read from git config or history (`GitAuthor`). -/
structure GitAuthor where
  email : Option String
  name : Option String
deriving DecidableEq, Repr

/-- Embedding of `getGitConfigValue`: subprocess failure or a
whitespace-only value both yield nothing. -/
def getGitConfigValue (configResult : Except Unit String) : Option String :=
  match configResult with
  | Except.error _ => none
  | Except.ok stdout =>
      let value := jsTrim stdout
      if value = "" then none else some value

/-- Embedding of `getCurrentAuthor`: nothing when neither the email nor
the name config value is resolvable. -/
def getCurrentAuthor (emailResult nameResult : Except Unit String) : Option GitAuthor :=
  let email := getGitConfigValue emailResult
  let name := getGitConfigValue nameResult
  if email = none && name = none then none
  else some { email := email, name := name }

/-- Embedding of `normalizeIdentity`: trim then lowercase, with `""`
for a missing value. -/
def normalizeIdentity (value : Option String) : String :=
  jsToLower (jsTrim (value.getD ""))

/-- Embedding of `doesAuthorMatch`: email comparison takes precedence
when the current identity has a non-empty normalized email, name
comparison otherwise. -/
def doesAuthorMatch (fileAuthor currentAuthor : GitAuthor) : Bool :=
  let expectedEmail := normalizeIdentity currentAuthor.email
  if expectedEmail ≠ "" then normalizeIdentity fileAuthor.email = expectedEmail
  else
    let expectedName := normalizeIdentity currentAuthor.name
    if expectedName ≠ "" then normalizeIdentity fileAuthor.name = expectedName
    else false

/-- The `__BCT_AUTHOR__` record marker of the `git log` format string. -/
def authorMarker : String := "__BCT_AUTHOR__"

/-- Appends a path/author pair only when the path is not yet recorded,
mirroring `result.has(filePath)` on the `Map`. -/
def recordIfAbsent (acc : List (String × GitAuthor)) (filePath : String)
    (author : GitAuthor) : List (String × GitAuthor) :=
  if (acc.map Prod.fst).contains filePath then acc else acc ++ [(filePath, author)]

/-- Worker of `getLatestAuthorByPath`: walks the NUL-separated tokens of
the `git log` output newest-first, remembering the author most recently
announced by a marker and recording the first author seen for each
wanted path; stops early once every wanted path has an author. -/
def walkAuthorTokens (wanted : List String) (wantedSize : Nat) :
    List String → Option GitAuthor → List (String × GitAuthor) →
    List (String × GitAuthor)
  | [], _, acc => acc
  | token :: rest, currentAuthor, acc =>
      if token = authorMarker then
        match rest with
        | [] => acc
        | [_] => acc
        | emailTok :: nameTok :: rest2 =>
            walkAuthorTokens wanted wantedSize rest2
              (some { email := some (jsTrim emailTok), name := some (jsTrim nameTok) }) acc
      else
        let filePath := jsTrim token
        match currentAuthor with
        | none => walkAuthorTokens wanted wantedSize rest currentAuthor acc
        | some author =>
            if filePath ≠ "" && wanted.contains filePath
                && !((acc.map Prod.fst).contains filePath) then
              let acc2 := acc ++ [(filePath, author)]
              if acc2.length = wantedSize then acc2
              else walkAuthorTokens wanted wantedSize rest currentAuthor acc2
            else walkAuthorTokens wanted wantedSize rest currentAuthor acc

/-- Deduplicated path list, mirroring `new Set(paths)` iteration order
(first occurrence wins). -/
def dedupPaths (paths : List String) : List String :=
  paths.foldl (fun acc p => if acc.contains p then acc else acc ++ [p]) []

/-- Embedding of `getLatestAuthorByPath` from the subprocess stdout:
association list from each wanted path to its most recent author. -/
def getLatestAuthorByPath (stdout : String) (paths : List String) :
    List (String × GitAuthor) :=
  let wanted := dedupPaths paths
  if wanted.length = 0 then []
  else walkAuthorTokens wanted wanted.length (splitOnChar (Char.ofNat 0) stdout) none []

/-- First recorded author for a path in the association list. -/
def lookupAuthor : List (String × GitAuthor) → String → Option GitAuthor
  | [], _ => none
  | (p, a) :: rest, q => if p = q then some a else lookupAuthor rest q

/-- Embedding of `filterChangedFilesByCurrentAuthor`: the two config
lookups and the history query are oracles; an unresolvable identity or a
failed history query yields the empty list. -/
def filterChangedFilesByCurrentAuthor (emailResult nameResult : Except Unit String)
    (logResult : Except Unit String) (files : List ChangedFile) : List ChangedFile :=
  if files.length = 0 then files
  else
    match getCurrentAuthor emailResult nameResult with
    | none => []
    | some currentAuthor =>
        match logResult with
        | Except.error _ => []
        | Except.ok stdout =>
            let authorByPath := getLatestAuthorByPath stdout (files.map (fun f => f.path))
            files.filter fun file =>
              match lookupAuthor authorByPath file.path with
              | some fileAuthor => doesAuthorMatch fileAuthor currentAuthor
              | none => false

/-! ## TabReconciler (`src/src/ui.ts`) and the editor world

A tab is a text tab with a document identity (the `uri.toString()` of a
`TabInputText`) or some other tab kind; groups are concatenated into one
list, which preserves the membership semantics the source relies on.
`GitRepositoryState.openedFiles` is the tracking set, modelled as a
duplicate-free-by-construction list. -/

/-- An editor tab: the identity of its text input, if any, and its
pinned flag. -/
structure Tab where
  input : Option String
  isPinned : Bool
deriving DecidableEq, Repr

/-- The editor world the reconciler acts on: all open tabs plus the
per-repository tracking set of system-opened document identities. -/
structure RepoWorld where
  tabs : List Tab
  openedFiles : List String
deriving DecidableEq, Repr

/-- Does this tab hold a text document whose identity is tracked? -/
def isTrackedTextTab (openedFiles : List String) (tab : Tab) : Bool :=
  match tab.input with
  | some uri => openedFiles.contains uri
  | none => false

/-- Embedding of `closeExtensionOpenedFiles`: closes every tab whose
text-document identity is in the tracking set, then clears the set. -/
def closeExtensionOpenedFiles (w : RepoWorld) : RepoWorld :=
  if w.openedFiles.length = 0 then w
  else
    { tabs := w.tabs.filter fun tab => !(isTrackedTextTab w.openedFiles tab),
      openedFiles := [] }

/-- Embedding of `closeExtensionPinnedFiles`: closes only the pinned
tabs whose identity is tracked, and deletes exactly the identities of
the closed tabs from the tracking set. -/
def closeExtensionPinnedFiles (w : RepoWorld) : RepoWorld :=
  if w.openedFiles.length = 0 then w
  else
    let isCloseTarget : Tab → Bool := fun tab =>
      tab.isPinned && isTrackedTextTab w.openedFiles tab
    let toClose := w.tabs.filter isCloseTarget
    let closedUris := toClose.filterMap (fun tab => tab.input)
    { tabs := w.tabs.filter fun tab => !(isCloseTarget tab),
      openedFiles := w.openedFiles.filter fun uri => !(closedUris.contains uri) }

/-- Embedding of `workbench.action.closeAllEditors`: every tab closes,
the tracking set is untouched. -/
def closeAllEditors (w : RepoWorld) : RepoWorld :=
  { tabs := [], openedFiles := w.openedFiles }

/-- `Set.add` on the tracking set. -/
def setAdd (l : List String) (x : String) : List String :=
  if l.contains x then l else l ++ [x]

/-! ## ChangedFileResolver + limit gate
(`openRepositoryChangedFiles` in
`src/src/features/changedFiles/openChangedFiles.ts`) -/

/-- The configuration snapshot consumed by one open pass. -/
structure OpenSettings where
  excludedBranches : List String
  baseBranch : String
  includeModifiedFiles : Bool
  includeNewlyTrackedFiles : Bool
  excludedDirectories : List String
  excludedFiles : List String
  textFilesOnly : Bool
  maxFilesToOpen : Int
  closePinnedTabsOnBranchChange : Bool
  closeAllBeforeOpen : Bool
  pinModifiedFiles : Bool
  pinNewlyTrackedFiles : Bool

/-- Every host/subprocess interaction of one open pass, as oracles. -/
structure OpenPassEnv where
  headName : Option String
  upstreamName : Option String
  ignoreEnablement : Bool
  enabled : Bool
  workspaceIgnoredFiles : List String
  refExists : String → Bool
  diffResult : Except Unit String
  checkIgnore : Except Unit (String × Option Int)
  compile : String → String → Option (String → Bool)
  fileOnDisk : String → Bool
  opensAsText : String → Bool
  showSucceeds : String → Bool
  limitPromptOpen : Bool

/-- Model of `vscode.Uri.file(path.join(repoRoot, p)).toString()`:
an identity injective in the repo-relative path. -/
def mkFileUri (repoRoot p : String) : String :=
  repoRoot ++ "/" ++ p

/-- The open loop of the pass: opens each surviving file up to the
limit, pins per kind, records each successfully opened identity, and
skips (never aborts on) per-file failures.  `maxToOpen = none` models
`Infinity`. -/
def openFilesLoop (env : OpenPassEnv) (s : OpenSettings) (repoRoot : String)
    (maxToOpen : Option Int) :
    List ChangedFile → Int → RepoWorld → RepoWorld
  | [], _, w => w
  | file :: rest, openedCount, w =>
      if (match maxToOpen with
          | none => false
          | some m => decide (openedCount ≥ m)) then w
      else
        let uri := mkFileUri repoRoot file.path
        if env.opensAsText file.path && env.showSucceeds file.path then
          let shouldPin :=
            if file.kind = ChangeKind.modified then s.pinModifiedFiles
            else s.pinNewlyTrackedFiles
          let w2 : RepoWorld :=
            { tabs := w.tabs ++ [{ input := some uri, isPinned := shouldPin }],
              openedFiles := setAdd w.openedFiles uri }
          openFilesLoop env s repoRoot maxToOpen rest (openedCount + 1) w2
        else openFilesLoop env s repoRoot maxToOpen rest openedCount w

/-- The filter chain of one open pass, from the diff result to the list
handed to the limit gate (`filesToConsider`). -/
def resolvedSurvivors (env : OpenPassEnv) (s : OpenSettings) : List ChangedFile :=
  let changedFiles := getChangedFiles env.diffResult
  let selectableFiles :=
    filterByChangeKind changedFiles s.includeModifiedFiles s.includeNewlyTrackedFiles
  let filteredFiles :=
    filterExcluded env.compile
      (filterExcludedDirectories env.compile selectableFiles s.excludedDirectories)
      s.excludedFiles
  let gitIgnoredFiltered := filterGitIgnoredFilesDirectories env.checkIgnore filteredFiles
  let workspaceIgnoredFiltered :=
    filterWorkspaceIgnoredFiles gitIgnoredFiltered env.workspaceIgnoredFiles
  if s.textFilesOnly then
    filterTextFiles env.fileOnDisk env.opensAsText workspaceIgnoredFiltered
  else workspaceIgnoredFiltered

/-- Embedding of `openRepositoryChangedFiles`: each early return hands
the world back unchanged; the configuration-persistence prompts after an
accepted limit gate touch neither tabs nor tracking set and are elided. -/
def openRepositoryChangedFiles (env : OpenPassEnv) (s : OpenSettings)
    (repoRoot : String) (w : RepoWorld) : RepoWorld :=
  if s.excludedBranches.contains ((env.headName).getD "") then w
  else if !env.ignoreEnablement && !env.enabled then w
  else
    match resolveBaseRef env.refExists s.baseBranch env.headName env.upstreamName with
    | none => w
    | some _baseRef =>
        if !(jsStrTruthy env.headName) then w
        else
          let changedFiles := getChangedFiles env.diffResult
          if changedFiles.length = 0 then w
          else
            let selectableFiles :=
              filterByChangeKind changedFiles s.includeModifiedFiles
                s.includeNewlyTrackedFiles
            if selectableFiles.length = 0 then w
            else
              let filteredFiles :=
                filterExcluded env.compile
                  (filterExcludedDirectories env.compile selectableFiles
                    s.excludedDirectories)
                  s.excludedFiles
              if filteredFiles.length = 0 then w
              else
                let gitIgnoredFiltered :=
                  filterGitIgnoredFilesDirectories env.checkIgnore filteredFiles
                if gitIgnoredFiltered.length = 0 then w
                else
                  let workspaceIgnoredFiltered :=
                    filterWorkspaceIgnoredFiles gitIgnoredFiltered
                      env.workspaceIgnoredFiles
                  if workspaceIgnoredFiltered.length = 0 then w
                  else
                    let filesToConsider :=
                      if s.textFilesOnly then
                        filterTextFiles env.fileOnDisk env.opensAsText
                          workspaceIgnoredFiltered
                      else workspaceIgnoredFiltered
                    if s.textFilesOnly && filesToConsider.length = 0 then w
                    else
                      let maxToOpen : Option Int :=
                        if s.maxFilesToOpen > 0 then some s.maxFilesToOpen else none
                      if s.maxFilesToOpen > 0
                          && decide ((filesToConsider.length : Int) > s.maxFilesToOpen)
                          && !env.limitPromptOpen then w
                      else
                        let w1 :=
                          if s.closePinnedTabsOnBranchChange then
                            closeExtensionPinnedFiles w
                          else closeExtensionOpenedFiles w
                        let w2 := if s.closeAllBeforeOpen then closeAllEditors w1 else w1
                        openFilesLoop env s repoRoot maxToOpen filesToConsider 0 w2

/-! ## RepositoryWatcher (`handleRepositoryChange` in `src/src/repoWatcher.ts`)

The timer-elapse handler; the tracking state's `lastBranch` plus the
editor world form the state it transforms.  The full resolution pass it
may invoke is the already-embedded `openRepositoryChangedFiles`. -/

/-- Tracking state plus editor world, the state of one repository as the
watcher sees it. -/
structure WatcherWorld where
  lastBranch : Option String
  world : RepoWorld
deriving DecidableEq, Repr

/-- The watcher's settings subset. -/
structure WatcherSettings where
  excludedBranches : List String
  closeAllOnExcludedBranch : Bool

/-- Embedding of `handleRepositoryChange`: records the current branch
(before the no-op check), bails out on an absent or unchanged branch, on
a disabled repository, and on an excluded branch (optionally closing the
system-opened tabs first); otherwise runs the open pass. -/
def handleRepositoryChange (currentBranch : Option String) (enabled : Bool)
    (s : WatcherSettings) (openPass : RepoWorld → RepoWorld)
    (ws : WatcherWorld) : WatcherWorld :=
  let previousBranch := ws.lastBranch
  let ws1 : WatcherWorld := { ws with lastBranch := currentBranch }
  if !(jsStrTruthy currentBranch) || currentBranch == previousBranch then ws1
  else if !enabled then ws1
  else if s.excludedBranches.contains ((currentBranch).getD "") then
    if s.closeAllOnExcludedBranch then
      { ws1 with world := closeExtensionOpenedFiles ws1.world }
    else ws1
  else { ws1 with world := openPass ws1.world }

/-! ## Helper lemmas -/

/-- Filtering twice with the same predicate filters once. -/
theorem filter_filter_self {α : Type} (p : α → Bool) (l : List α) :
    (l.filter p).filter p = l.filter p := by
  induction l with
  | nil => rfl
  | cons a t ih =>
      by_cases h : p a = true
      · simp [List.filter_cons, h, ih]
      · simp [List.filter_cons, h, ih]

/-- Nothing is tracked when the tracking set is empty. -/
theorem isTrackedTextTab_nil (tab : Tab) : isTrackedTextTab [] tab = false := by
  cases htab : tab.input <;> simp [isTrackedTextTab, htab]

/-! ## C7 -/

/-- C7: on subprocess failure the two stages behave asymmetrically:
a failed diff retrieval yields the empty list, while a failed
ignore-check query passes the input file list through unchanged in both
variants of the VCS-ignore filter stage. -/
theorem c7_failure_asymmetry (e : Unit) (files : List ChangedFile) :
    getChangedFiles (Except.error e) = [] ∧
    filterGitIgnored (Except.error e) files = files ∧
    filterGitIgnoredFilesDirectories (Except.error e) files = files := by
  refine ⟨rfl, ?_, ?_⟩
  · by_cases h : files.length = 0 <;> simp [filterGitIgnored, h]
  · by_cases h : files.length = 0 <;> simp [filterGitIgnoredFilesDirectories, h]

/-! ## C10 -/

/-- C10: after `closeExtensionOpenedFiles` the tracking set is empty,
and exactly the tabs whose text-document identity was tracked are
closed — identities with no matching tab are pruned silently. -/
theorem c10_close_all_clears_tracking (w : RepoWorld) :
    (closeExtensionOpenedFiles w).openedFiles = [] ∧
    (closeExtensionOpenedFiles w).tabs =
      w.tabs.filter fun tab => !(isTrackedTextTab w.openedFiles tab) := by
  by_cases h : w.openedFiles.length = 0
  · have hnil : w.openedFiles = [] := List.length_eq_zero.mp h
    constructor
    · simp [closeExtensionOpenedFiles, h, hnil]
    · simp [closeExtensionOpenedFiles, h, hnil, isTrackedTextTab_nil]
  · constructor
    · simp [closeExtensionOpenedFiles, h]
    · simp [closeExtensionOpenedFiles, h]

/-! ## C9 -/

/-- C9: the change-kind filter, the path-exclusion filter, the
directory-exclusion filter and the workspace manual-ignore filter are
each idempotent for a fixed stage configuration. -/
theorem c9_stage_idempotence (compile : String → String → Option (String → Bool))
    (files : List ChangedFile) (includeModified includeAdded : Bool)
    (regexes dirRegexes ignoredFiles : List String) :
    filterByChangeKind (filterByChangeKind files includeModified includeAdded)
        includeModified includeAdded =
      filterByChangeKind files includeModified includeAdded ∧
    filterExcluded compile (filterExcluded compile files regexes) regexes =
      filterExcluded compile files regexes ∧
    filterExcludedDirectories compile
        (filterExcludedDirectories compile files dirRegexes) dirRegexes =
      filterExcludedDirectories compile files dirRegexes ∧
    filterWorkspaceIgnoredFiles (filterWorkspaceIgnoredFiles files ignoredFiles)
        ignoredFiles =
      filterWorkspaceIgnoredFiles files ignoredFiles := by
  refine ⟨?_, ?_, ?_, ?_⟩
  · cases includeModified <;> cases includeAdded <;>
      simp [filterByChangeKind, filter_filter_self]
  · by_cases h : (regexes.filterMap (parseRegex compile)).length = 0 <;>
      simp [filterExcluded, h, filter_filter_self]
  · by_cases h : (dirRegexes.filterMap (parseRegex compile)).length = 0 <;>
      simp [filterExcludedDirectories, h, filter_filter_self]
  · by_cases h : ignoredFiles = [] <;>
      simp [filterWorkspaceIgnoredFiles, h, filter_filter_self]

/-! ## C3 -/

/-- C3: the VCS-ignore filter stage actually wired into the pipeline
(`filterGitIgnoredFilesDirectories`, `src/build/filters.js`) fails to
drop a path the ignore query reports as ignored — its guard
`exitCode === 1 || ignored.size` returns the input before the filtering
line is reached — while the `filterGitIgnored` variant of
`src/src/filters.ts` drops it as specified. -/
theorem c3_ignore_stage_divergence :
    filterGitIgnoredFilesDirectories
        (Except.ok ("a.txt\x00", some 0))
        [{ path := "a.txt", kind := ChangeKind.modified }] =
      [{ path := "a.txt", kind := ChangeKind.modified }] ∧
    filterGitIgnored
        (Except.ok ("a.txt\x00", some 0))
        [{ path := "a.txt", kind := ChangeKind.modified }] = [] := by
  constructor <;> decide

/-! ## C1 -/

/-- C1: `resolveBaseRef` returns the first successful candidate of the
precedence order — verified trimmed override, then an existing upstream
that does not track the current branch (by equality or a
remote-qualified `.../branch` suffix), then `main`, then `master`, else
nothing — as captured by the spec-side candidate list `baseRefSpec`. -/
theorem c1_base_ref_precedence (refExists : String → Bool) (configuredBase : String)
    (currentBranch upstream : Option String) :
    resolveBaseRef refExists configuredBase currentBranch upstream =
      baseRefSpec refExists configuredBase currentBranch upstream := by
  cases upstream with
  | none =>
      simp only [resolveBaseRef, baseRefSpec, firstSome]
      split_ifs <;> simp_all [firstSome]
  | some u =>
      simp only [resolveBaseRef, baseRefSpec, firstSome]
      cases currentBranch with
      | none => split_ifs <;> simp_all [firstSome]
      | some b => split_ifs <;> simp_all [firstSome]

/-! ## C4 -/

/-- C4: the diff status-line parser classifies `R*`/`C*` lines as
Modified at the second path field (the destination), `A` as Added and
`M` as Modified at the single path field, yields nothing for any other
status or any line missing its required fields, and blank lines are
skipped before parsing. -/
theorem c4_diff_status_parsing (line : String) (pre post : List String)
    (blank : String) :
    ((startsWithChar (((splitTabRuns line).get? 0).getD "") 'R'
        || startsWithChar (((splitTabRuns line).get? 0).getD "") 'C') = true →
      parseNameStatus line =
        (if (((splitTabRuns line).get? 2).getD "") = "" then none
         else some { path := ((splitTabRuns line).get? 2).getD "",
                     kind := ChangeKind.modified })) ∧
    ((((splitTabRuns line).get? 0).getD "") = "A" →
      parseNameStatus line =
        (if (((splitTabRuns line).get? 1).getD "") = "" then none
         else some { path := ((splitTabRuns line).get? 1).getD "",
                     kind := ChangeKind.added })) ∧
    ((((splitTabRuns line).get? 0).getD "") = "M" →
      parseNameStatus line =
        (if (((splitTabRuns line).get? 1).getD "") = "" then none
         else some { path := ((splitTabRuns line).get? 1).getD "",
                     kind := ChangeKind.modified })) ∧
    (startsWithChar (((splitTabRuns line).get? 0).getD "") 'R' = false →
      startsWithChar (((splitTabRuns line).get? 0).getD "") 'C' = false →
      (((splitTabRuns line).get? 0).getD "") ≠ "A" →
      (((splitTabRuns line).get? 0).getD "") ≠ "M" →
      parseNameStatus line = none) ∧
    (jsTrim blank = "" →
      linesToChangedFiles (pre ++ blank :: post) = linesToChangedFiles (pre ++ post)) := by
  refine ⟨?_, ?_, ?_, ?_, ?_⟩
  · intro h
    have hne : (((splitTabRuns line).get? 0).getD "") ≠ "" := by
      intro he
      rw [he] at h
      exact absurd h (by decide)
    simp only [parseNameStatus]
    rw [if_neg hne, if_pos h]
  · intro h
    have hne : (((splitTabRuns line).get? 0).getD "") ≠ "" := by
      rw [h]
      decide
    have hrc : ¬((startsWithChar (((splitTabRuns line).get? 0).getD "") 'R'
        || startsWithChar (((splitTabRuns line).get? 0).getD "") 'C') = true) := by
      rw [h]
      decide
    simp only [parseNameStatus]
    rw [if_neg hne, if_neg hrc]
    by_cases h1 : (((splitTabRuns line).get? 1).getD "") = ""
    · rw [if_pos h1, if_pos h1]
    · rw [if_neg h1, if_neg h1, if_pos h]
  · intro h
    have hne : (((splitTabRuns line).get? 0).getD "") ≠ "" := by
      rw [h]
      decide
    have hrc : ¬((startsWithChar (((splitTabRuns line).get? 0).getD "") 'R'
        || startsWithChar (((splitTabRuns line).get? 0).getD "") 'C') = true) := by
      rw [h]
      decide
    have hna : ¬((((splitTabRuns line).get? 0).getD "") = "A") := by
      rw [h]
      decide
    simp only [parseNameStatus]
    rw [if_neg hne, if_neg hrc]
    by_cases h1 : (((splitTabRuns line).get? 1).getD "") = ""
    · rw [if_pos h1, if_pos h1]
    · rw [if_neg h1, if_neg h1, if_neg hna, if_pos h]
  · intro h1 h2 h3 h4
    simp only [parseNameStatus]
    by_cases hstat : (((splitTabRuns line).get? 0).getD "") = ""
    · rw [if_pos hstat]
    · have hrc : ¬((startsWithChar (((splitTabRuns line).get? 0).getD "") 'R'
          || startsWithChar (((splitTabRuns line).get? 0).getD "") 'C') = true) := by
        rw [h1, h2]
        decide
      rw [if_neg hstat, if_neg hrc]
      by_cases hf : (((splitTabRuns line).get? 1).getD "") = ""
      · rw [if_pos hf]
      · rw [if_neg hf, if_neg h3, if_neg h4]
  · intro h
    simp only [linesToChangedFiles, List.map_append, List.map_cons, h,
      List.filter_append, List.filter_cons]
    simp

/-- C4 witness: a rename line at a concrete input, via the theorem. -/
theorem c4_witness :
    parseNameStatus "R100\told.txt\tnew.txt" =
      some { path := "new.txt", kind := ChangeKind.modified } := by
  have h := (c4_diff_status_parsing "R100\told.txt\tnew.txt" [] [] "").1 (by decide)
  rw [h]
  decide

/-! ## C6 -/

/-- C6: with the close-pinned-only policy, exactly the pinned tabs whose
document identity is tracked are closed; exactly the identities of
closed tabs leave the tracking set; a tracked identity with no pinned
tab stays tracked; non-pinned tabs and tabs outside the tracking set all
stay open. -/
theorem c6_close_pinned_only (w : RepoWorld) :
    ((closeExtensionPinnedFiles w).tabs =
      w.tabs.filter fun tab => !(tab.isPinned && isTrackedTextTab w.openedFiles tab)) ∧
    (∀ u, u ∈ w.openedFiles →
      (u ∈ (closeExtensionPinnedFiles w).openedFiles ↔
        ¬ ∃ tab, tab ∈ w.tabs ∧ tab.isPinned = true ∧ tab.input = some u)) ∧
    (∀ tab, tab ∈ w.tabs → tab.isPinned = false →
      tab ∈ (closeExtensionPinnedFiles w).tabs) ∧
    (∀ tab, tab ∈ w.tabs → isTrackedTextTab w.openedFiles tab = false →
      tab ∈ (closeExtensionPinnedFiles w).tabs) := by
  by_cases h : w.openedFiles.length = 0
  · have hnil : w.openedFiles = [] := List.length_eq_zero.mp h
    have hw : closeExtensionPinnedFiles w = w := by
      simp [closeExtensionPinnedFiles, h]
    refine ⟨?_, ?_, ?_, ?_⟩
    · rw [hw]
      symm
      apply List.filter_eq_self.mpr
      intro tab _
      rw [hnil, isTrackedTextTab_nil]
      simp
    · intro u hu
      rw [hnil] at hu
      exact absurd hu (List.not_mem_nil u)
    · intro tab htab _
      rw [hw]
      exact htab
    · intro tab htab _
      rw [hw]
      exact htab
  · have htabs : (closeExtensionPinnedFiles w).tabs =
        w.tabs.filter fun tab =>
          !(tab.isPinned && isTrackedTextTab w.openedFiles tab) := by
      simp [closeExtensionPinnedFiles, h]
    have hopen : (closeExtensionPinnedFiles w).openedFiles =
        w.openedFiles.filter fun uri =>
          !(((w.tabs.filter fun tab =>
              tab.isPinned && isTrackedTextTab w.openedFiles tab).filterMap
                (fun tab => tab.input)).contains uri) := by
      simp [closeExtensionPinnedFiles, h]
    refine ⟨htabs, ?_, ?_, ?_⟩
    · intro u hu
      rw [hopen]
      simp only [List.mem_filter]
      constructor
      · rintro ⟨-, hq⟩ ⟨tab, htab, hpin, hinput⟩
        have hmem : u ∈ (w.tabs.filter fun tab =>
            tab.isPinned && isTrackedTextTab w.openedFiles tab).filterMap
              (fun tab => tab.input) := by
          rw [List.mem_filterMap]
          refine ⟨tab, ?_, hinput⟩
          rw [List.mem_filter]
          refine ⟨htab, ?_⟩
          rw [hpin]
          simp only [isTrackedTextTab, hinput, Bool.true_and]
          exact List.elem_iff.mpr hu
        have hcontains : ((w.tabs.filter fun tab =>
            tab.isPinned && isTrackedTextTab w.openedFiles tab).filterMap
              (fun tab => tab.input)).contains u = true :=
          List.elem_iff.mpr hmem
        rw [hcontains] at hq
        exact absurd hq (by decide)
      · intro hno
        refine ⟨hu, ?_⟩
        by_cases hc : u ∈ (w.tabs.filter fun tab =>
            tab.isPinned && isTrackedTextTab w.openedFiles tab).filterMap
              (fun tab => tab.input)
        · rw [List.mem_filterMap] at hc
          obtain ⟨tab, htab, hinput⟩ := hc
          rw [List.mem_filter] at htab
          obtain ⟨htabmem, hflags⟩ := htab
          have hpin : tab.isPinned = true := by
            cases hp : tab.isPinned
            · rw [hp] at hflags
              exact absurd hflags (by simp)
            · rfl
          exact absurd ⟨tab, htabmem, hpin, hinput⟩ hno
        · have hcontains : ((w.tabs.filter fun tab =>
              tab.isPinned && isTrackedTextTab w.openedFiles tab).filterMap
                (fun tab => tab.input)).contains u = false := by
            cases hcb : ((w.tabs.filter fun tab =>
                tab.isPinned && isTrackedTextTab w.openedFiles tab).filterMap
                  (fun tab => tab.input)).contains u
            · rfl
            · exact absurd (List.elem_iff.mp hcb) hc
          rw [hcontains]
          decide
    · intro tab htab hpin
      rw [htabs, List.mem_filter]
      refine ⟨htab, ?_⟩
      rw [hpin]
      simp
    · intro tab htab htracked
      rw [htabs, List.mem_filter]
      refine ⟨htab, ?_⟩
      rw [htracked]
      simp

/-- C6 witness: the spec's concrete case — tracked pinned D1 closes and
leaves the set, tracked unpinned D2 stays open and tracked. -/
theorem c6_witness :
    (closeExtensionPinnedFiles
        { tabs := [{ input := some "D1", isPinned := true },
                   { input := some "D2", isPinned := false }],
          openedFiles := ["D1", "D2"] }).tabs =
      [{ input := some "D2", isPinned := false }] ∧
    (closeExtensionPinnedFiles
        { tabs := [{ input := some "D1", isPinned := true },
                   { input := some "D2", isPinned := false }],
          openedFiles := ["D1", "D2"] }).openedFiles = ["D2"] := by
  constructor
  · rw [(c6_close_pinned_only
      { tabs := [{ input := some "D1", isPinned := true },
                 { input := some "D2", isPinned := false }],
        openedFiles := ["D1", "D2"] }).1]
    decide
  · decide

/-! ## C2 -/

/-- C2: when the limit is positive, the surviving file count exceeds it
and the user declines the confirmation prompt, the open pass returns the
editor world unchanged: no tab is closed or opened and the tracking set
is exactly as before. -/
theorem c2_limit_decline_aborts (env : OpenPassEnv) (s : OpenSettings)
    (repoRoot : String) (w : RepoWorld)
    (hmax : s.maxFilesToOpen > 0)
    (hcount : ((resolvedSurvivors env s).length : Int) > s.maxFilesToOpen)
    (hdecline : env.limitPromptOpen = false) :
    openRepositoryChangedFiles env s repoRoot w = w := by
  delta openRepositoryChangedFiles
  by_cases h1 : s.excludedBranches.contains ((env.headName).getD "") = true
  · rw [if_pos h1]
  rw [if_neg h1]
  by_cases h2 : (!env.ignoreEnablement && !env.enabled) = true
  · rw [if_pos h2]
  rw [if_neg h2]
  rcases hr : resolveBaseRef env.refExists s.baseBranch env.headName env.upstreamName with _ | r
  · rfl
  show (if (!jsStrTruthy env.headName) = true then w else _) = w
  by_cases h3 : (!jsStrTruthy env.headName) = true
  · rw [if_pos h3]
  rw [if_neg h3]
  simp only []
  by_cases h4 : (getChangedFiles env.diffResult).length = 0
  · rw [if_pos h4]
  rw [if_neg h4]
  by_cases h5 : (filterByChangeKind (getChangedFiles env.diffResult)
      s.includeModifiedFiles s.includeNewlyTrackedFiles).length = 0
  · rw [if_pos h5]
  rw [if_neg h5]
  by_cases h6 : (filterExcluded env.compile
      (filterExcludedDirectories env.compile
        (filterByChangeKind (getChangedFiles env.diffResult)
          s.includeModifiedFiles s.includeNewlyTrackedFiles)
        s.excludedDirectories)
      s.excludedFiles).length = 0
  · rw [if_pos h6]
  rw [if_neg h6]
  by_cases h7 : (filterGitIgnoredFilesDirectories env.checkIgnore
      (filterExcluded env.compile
        (filterExcludedDirectories env.compile
          (filterByChangeKind (getChangedFiles env.diffResult)
            s.includeModifiedFiles s.includeNewlyTrackedFiles)
          s.excludedDirectories)
        s.excludedFiles)).length = 0
  · rw [if_pos h7]
  rw [if_neg h7]
  by_cases h8 : (filterWorkspaceIgnoredFiles
      (filterGitIgnoredFilesDirectories env.checkIgnore
        (filterExcluded env.compile
          (filterExcludedDirectories env.compile
            (filterByChangeKind (getChangedFiles env.diffResult)
              s.includeModifiedFiles s.includeNewlyTrackedFiles)
            s.excludedDirectories)
          s.excludedFiles))
      env.workspaceIgnoredFiles).length = 0
  · rw [if_pos h8]
  rw [if_neg h8]
  by_cases h9 : (s.textFilesOnly && decide ((if s.textFilesOnly then
      filterTextFiles env.fileOnDisk env.opensAsText
        (filterWorkspaceIgnoredFiles
          (filterGitIgnoredFilesDirectories env.checkIgnore
            (filterExcluded env.compile
              (filterExcludedDirectories env.compile
                (filterByChangeKind (getChangedFiles env.diffResult)
                  s.includeModifiedFiles s.includeNewlyTrackedFiles)
                s.excludedDirectories)
              s.excludedFiles))
          env.workspaceIgnoredFiles)
    else
      filterWorkspaceIgnoredFiles
        (filterGitIgnoredFilesDirectories env.checkIgnore
          (filterExcluded env.compile
            (filterExcludedDirectories env.compile
              (filterByChangeKind (getChangedFiles env.diffResult)
                s.includeModifiedFiles s.includeNewlyTrackedFiles)
              s.excludedDirectories)
            s.excludedFiles))
        env.workspaceIgnoredFiles).length = 0)) = true
  · rw [if_pos h9]
  rw [if_neg h9]
  rw [if_pos ?hgate]
  case hgate =>
    rw [Bool.and_eq_true, Bool.and_eq_true]
    refine ⟨⟨decide_eq_true hmax, decide_eq_true hcount⟩, ?_⟩
    rw [hdecline]
    decide


/-- C2 witness: two surviving files against a limit of one, declined. -/
theorem c2_witness :
    openRepositoryChangedFiles
        { headName := some "feature", upstreamName := none,
          ignoreEnablement := true, enabled := true,
          workspaceIgnoredFiles := [],
          refExists := fun r => r = "main",
          diffResult := Except.ok "M\ta.txt\nM\tb.txt",
          checkIgnore := Except.ok ("", some 1),
          compile := fun _ _ => none,
          fileOnDisk := fun _ => true, opensAsText := fun _ => true,
          showSucceeds := fun _ => true, limitPromptOpen := false }
        { excludedBranches := [], baseBranch := "",
          includeModifiedFiles := true, includeNewlyTrackedFiles := true,
          excludedDirectories := [], excludedFiles := [],
          textFilesOnly := false, maxFilesToOpen := 1,
          closePinnedTabsOnBranchChange := false, closeAllBeforeOpen := false,
          pinModifiedFiles := false, pinNewlyTrackedFiles := false }
        "repo"
        { tabs := [{ input := some "t", isPinned := false }],
          openedFiles := ["u"] } =
      { tabs := [{ input := some "t", isPinned := false }],
        openedFiles := ["u"] } :=
  c2_limit_decline_aborts _ _ "repo" _ (by decide) (by decide) rfl

/-! ## C8 -/

/-- C8 counterexample: on a timer elapse with the branch absent, the
watcher is claimed to leave the tracking state (including `lastBranch`)
unchanged, but `handleRepositoryChange` overwrites `lastBranch` with the
absent value before the no-op check, so a previously recorded branch is
lost. -/
theorem c8_counterexample :
    handleRepositoryChange none true
        { excludedBranches := [], closeAllOnExcludedBranch := false } id
        { lastBranch := some "main", world := { tabs := [], openedFiles := [] } } ≠
      { lastBranch := some "main", world := { tabs := [], openedFiles := [] } } := by
  decide

/-- C8 amended: on a timer elapse with the branch absent (or falsy) or
equal to the recorded `lastBranch`, the watcher starts no resolution
pass and touches no tabs and no tracked identities, but `lastBranch` is
overwritten with the current (possibly absent) branch value — a no-op
only when the branch is unchanged. -/
theorem c8_noop_amended (currentBranch : Option String) (enabled : Bool)
    (s : WatcherSettings) (openPass : RepoWorld → RepoWorld) (ws : WatcherWorld)
    (h : jsStrTruthy currentBranch = false ∨ currentBranch = ws.lastBranch) :
    handleRepositoryChange currentBranch enabled s openPass ws =
      { ws with lastBranch := currentBranch } := by
  unfold handleRepositoryChange
  rcases h with h | h
  · rw [h]
    simp
  · rw [h]
    cases hb : jsStrTruthy ws.lastBranch
    · simp [hb]
    · simp [hb]

/-- C8 witness: an unchanged branch leaves the whole state unchanged. -/
theorem c8_witness :
    handleRepositoryChange (some "main") true
        { excludedBranches := [], closeAllOnExcludedBranch := false } id
        { lastBranch := some "main", world := { tabs := [], openedFiles := [] } } =
      { lastBranch := some "main", world := { tabs := [], openedFiles := [] } } :=
  c8_noop_amended (some "main") true
    { excludedBranches := [], closeAllOnExcludedBranch := false } id
    { lastBranch := some "main", world := { tabs := [], openedFiles := [] } }
    (Or.inr rfl)

/-! ## C5 -/

/-- `dropWhile` never lengthens a list. -/
theorem dropWhile_length_le (p : Char → Bool) (l : List Char) :
    (l.dropWhile p).length ≤ l.length := by
  induction l with
  | nil => simp [List.dropWhile]
  | cons a t ih =>
      by_cases h : p a = true
      · simp only [List.dropWhile_cons, h, if_true]
        exact Nat.le_succ_of_le ih
      · simp only [List.dropWhile_cons, h, if_false]
        exact Nat.le_refl _

/-- Dropping a prefix twice with the same predicate drops it once. -/
theorem dropWhile_dropWhile (p : Char → Bool) (l : List Char) :
    (l.dropWhile p).dropWhile p = l.dropWhile p := by
  induction l with
  | nil => rfl
  | cons a t ih =>
      by_cases h : p a = true
      · simp only [List.dropWhile_cons, h, if_true]
        exact ih
      · simp [List.dropWhile_cons, h]

/-- A prefix of a list with no leading `p`-satisfying element itself has
no leading `p`-satisfying element. -/
theorem dropWhile_eq_self_of_append (p : Char → Bool) (r s m : List Char)
    (hm : m.dropWhile p = m) (hrs : r ++ s = m) : r.dropWhile p = r := by
  cases r with
  | nil => rfl
  | cons c t =>
      have hc : ¬(p c = true) := by
        intro hpc
        have h1 : m.dropWhile p = (t ++ s).dropWhile p := by
          rw [← hrs]
          simp [List.dropWhile_cons, hpc]
        have h2 : ((t ++ s).dropWhile p).length ≤ (t ++ s).length :=
          dropWhile_length_le p (t ++ s)
        rw [hm] at h1
        have h3 : m.length = (t ++ s).length + 1 := by
          rw [← hrs]
          simp [List.length_append]
        rw [← h1] at h2
        omega
      simp [List.dropWhile_cons, hc]

/-- `trimList` output has no leading whitespace. -/
theorem trimList_no_lead (l : List Char) :
    (trimList l).dropWhile wsChar = trimList l := by
  obtain ⟨u, hu⟩ :=
    List.dropWhile_suffix (l := (l.dropWhile wsChar).reverse) wsChar
  apply dropWhile_eq_self_of_append wsChar (trimList l) u.reverse (l.dropWhile wsChar)
  · exact dropWhile_dropWhile wsChar l
  · have h := congrArg List.reverse hu
    rw [List.reverse_append, List.reverse_reverse] at h
    exact h

/-- `trimList` output has no trailing whitespace. -/
theorem trimList_no_trail (l : List Char) :
    (trimList l).reverse.dropWhile wsChar = (trimList l).reverse := by
  show (List.dropWhile wsChar
      (((l.dropWhile wsChar).reverse.dropWhile wsChar).reverse).reverse) = _
  rw [List.reverse_reverse]
  rw [dropWhile_dropWhile]
  unfold trimList
  rw [List.reverse_reverse]

/-- `trimList` is idempotent. -/
theorem trimList_idem (l : List Char) : trimList (trimList l) = trimList l := by
  show (List.dropWhile wsChar
      ((trimList l).dropWhile wsChar).reverse).reverse = trimList l
  rw [trimList_no_lead]
  have h := trimList_no_trail l
  rw [h, List.reverse_reverse]

/-- `jsTrim` is idempotent. -/
theorem jsTrim_idem (s : String) : jsTrim (jsTrim s) = jsTrim s :=
  congrArg String.mk (trimList_idem s.data)

/-- A value produced by `getGitConfigValue` is already trimmed and
non-empty. -/
theorem getGitConfigValue_trimmed (r : Except Unit String) (v : String)
    (h : getGitConfigValue r = some v) : jsTrim v = v ∧ v ≠ "" := by
  cases r with
  | error e => exact absurd h (by simp [getGitConfigValue])
  | ok stdout =>
      simp only [getGitConfigValue] at h
      by_cases hv : jsTrim stdout = ""
      · rw [if_pos hv] at h
        exact absurd h (by simp)
      · rw [if_neg hv] at h
        have hveq : jsTrim stdout = v := by
          exact Option.some.inj h
        constructor
        · rw [← hveq]
          exact jsTrim_idem stdout
        · rw [← hveq]
          exact hv

/-- A trimmed non-empty identity normalizes to a non-empty string. -/
theorem normalizeIdentity_config_ne (v : String) (h1 : jsTrim v = v)
    (h2 : v ≠ "") : normalizeIdentity (some v) ≠ "" := by
  simp only [normalizeIdentity, Option.getD_some]
  rw [h1]
  intro hcontra
  apply h2
  have hdata : (jsToLower v).data = ("" : String).data := congrArg String.data hcontra
  simp only [jsToLower] at hdata
  have hnil : v.data.map Char.toLower = [] := hdata
  have hvdata : v.data = [] := List.map_eq_nil_iff.mp hnil
  apply String.ext
  rw [hvdata]

/-- Spec-side author matching, written from the spec's words: email
comparison (case-insensitive, trimmed) takes precedence when the current
user has an email configured; otherwise name comparison is used. -/
def authorIdentityMatches (fileAuthor currentAuthor : GitAuthor) : Bool :=
  match currentAuthor.email with
  | some e => normalizeIdentity fileAuthor.email = normalizeIdentity (some e)
  | none =>
      match currentAuthor.name with
      | some n => normalizeIdentity fileAuthor.name = normalizeIdentity (some n)
      | none => false

/-- For an identity whose fields come from `getGitConfigValue`, the
code's matcher agrees with the spec-side matcher. -/
theorem doesAuthorMatch_eq_spec (fa cur : GitAuthor)
    (hemail : ∀ e, cur.email = some e → jsTrim e = e ∧ e ≠ "")
    (hname : ∀ n, cur.name = some n → jsTrim n = n ∧ n ≠ "") :
    doesAuthorMatch fa cur = authorIdentityMatches fa cur := by
  cases he : cur.email with
  | some e =>
      obtain ⟨he1, he2⟩ := hemail e he
      have hne := normalizeIdentity_config_ne e he1 he2
      simp only [doesAuthorMatch, authorIdentityMatches, he]
      rw [if_pos hne]
  | none =>
      have hzero : normalizeIdentity (none : Option String) = "" := by decide
      simp only [doesAuthorMatch, authorIdentityMatches, he, hzero]
      rw [if_neg (by simp)]
      cases hn : cur.name with
      | some n =>
          obtain ⟨hn1, hn2⟩ := hname n hn
          have hne := normalizeIdentity_config_ne n hn1 hn2
          rw [if_pos hne]
      | none =>
          rw [hzero]
          rw [if_neg (by simp)]

/-- C5: for a non-empty input, the author filter yields nothing when
neither identity field is resolvable (fail closed); otherwise it keeps
exactly the files whose recorded most-recent author matches the current
identity — email first when configured, else name, both trimmed and
lowercased — and a path with no recorded author is always dropped. -/
theorem c5_author_ownership (emailResult nameResult logResult : Except Unit String)
    (files : List ChangedFile) (hne : files ≠ []) :
    (getCurrentAuthor emailResult nameResult = none ↔
      getGitConfigValue emailResult = none ∧ getGitConfigValue nameResult = none) ∧
    (getCurrentAuthor emailResult nameResult = none →
      filterChangedFilesByCurrentAuthor emailResult nameResult logResult files = []) ∧
    (∀ cur, getCurrentAuthor emailResult nameResult = some cur →
      ∀ stdout, logResult = Except.ok stdout →
        filterChangedFilesByCurrentAuthor emailResult nameResult logResult files =
          files.filter fun file =>
            match lookupAuthor
                (getLatestAuthorByPath stdout (files.map (fun f => f.path)))
                file.path with
            | some fileAuthor => authorIdentityMatches fileAuthor cur
            | none => false) := by
  have hlen : ¬(files.length = 0) := by
    intro h0
    exact hne (List.length_eq_zero.mp h0)
  refine ⟨?_, ?_, ?_⟩
  · simp only [getCurrentAuthor]
    by_cases he : getGitConfigValue emailResult = none <;>
      by_cases hn : getGitConfigValue nameResult = none <;>
      simp [he, hn]
  · intro h
    simp only [filterChangedFilesByCurrentAuthor]
    rw [if_neg hlen, h]
  · intro cur hcur stdout hlog
    have hfields : cur.email = getGitConfigValue emailResult ∧
        cur.name = getGitConfigValue nameResult := by
      simp only [getCurrentAuthor] at hcur
      by_cases hb : getGitConfigValue emailResult = none ∧
          getGitConfigValue nameResult = none
      · rw [if_pos (by simp [hb.1, hb.2])] at hcur
        exact absurd hcur (by simp)
      · have : ¬(getGitConfigValue emailResult = none
            && getGitConfigValue nameResult = none) = true := by
          simp only [Bool.and_eq_true, decide_eq_true_eq]
          intro hcontra
          exact hb ⟨by simpa using hcontra.1, by simpa using hcontra.2⟩
        rw [if_neg this] at hcur
        have := Option.some.inj hcur
        rw [← this]
        exact ⟨rfl, rfl⟩
    simp only [filterChangedFilesByCurrentAuthor]
    rw [if_neg hlen, hcur, hlog]
    apply List.filter_congr
    intro file _
    cases hlook : lookupAuthor
        (getLatestAuthorByPath stdout (files.map (fun f => f.path))) file.path with
    | none => rfl
    | some fileAuthor =>
        show doesAuthorMatch fileAuthor cur = authorIdentityMatches fileAuthor cur
        apply doesAuthorMatch_eq_spec
        · intro e hee
          rw [hfields.1] at hee
          exact getGitConfigValue_trimmed emailResult e hee
        · intro n hnn
          rw [hfields.2] at hnn
          exact getGitConfigValue_trimmed nameResult n hnn

/-- C5 witness: the spec's concrete case — current email `a@x.com`,
file `f1` last authored by `A@X.com` (kept, case-insensitive) and `f2`
by `b@x.com` (dropped). -/
theorem c5_witness :
    filterChangedFilesByCurrentAuthor (Except.ok "a@x.com") (Except.error ())
        (Except.ok
          "__BCT_AUTHOR__\x00A@X.com\x00Alice\x00f1\x00__BCT_AUTHOR__\x00b@x.com\x00Bob\x00f2")
        [{ path := "f1", kind := ChangeKind.modified },
         { path := "f2", kind := ChangeKind.modified }] =
      [{ path := "f1", kind := ChangeKind.modified }] := by
  have h := (c5_author_ownership (Except.ok "a@x.com") (Except.error ())
      (Except.ok
        "__BCT_AUTHOR__\x00A@X.com\x00Alice\x00f1\x00__BCT_AUTHOR__\x00b@x.com\x00Bob\x00f2")
      [{ path := "f1", kind := ChangeKind.modified },
       { path := "f2", kind := ChangeKind.modified }]
      (by decide)).2.2
      { email := some "a@x.com", name := none } (by decide)
      "__BCT_AUTHOR__\x00A@X.com\x00Alice\x00f1\x00__BCT_AUTHOR__\x00b@x.com\x00Bob\x00f2"
      rfl
  rw [h]
  decide

end BranchTabs
